import Mathlib

/-!
Verification of the consistency and aggregation engine of a multi-tenant
scored-competition service (package isuports).  The definitions below are a
shallow embedding of the Go source: the helpisu caches and the in-handler
string maps are modelled as association lists, SQL selects are abstracted as
the row lists they return, and each handler's cache / state effects are
rendered as pure state-passing functions.  Source locations are given next to
each definition.
-/

namespace Isuports

/-- Association-list lookup, modelling helpisu.Cache.Get and Go map reads:
the first pair whose key matches is returned. -/
def assocGet {K V : Type} [BEq K] (c : List (K × V)) (k : K) : Option V :=
  (c.find? (fun e => e.1 == k)).map (fun e => e.2)

/-- Association-list update, modelling helpisu.Cache.Set and Go map writes:
if the key is present its value is replaced in place, otherwise the pair is
appended. -/
def assocSet {K V : Type} [BEq K] (c : List (K × V)) (k : K) (v : V) : List (K × V) :=
  if c.any (fun e => e.1 == k) then c.map (fun e => if e.1 == k then (k, v) else e)
  else c ++ [(k, v)]

/-- Association-list deletion, modelling helpisu.Cache.Delete. -/
def assocDelete {K V : Type} [BEq K] (c : List (K × V)) (k : K) : List (K × V) :=
  c.filter (fun e => !(e.1 == k))

/-! ## Data model (rows of the row store, source struct definitions) -/

/-- CompetitionRow (part_000 lines 455-462); finished_at is a sql.NullInt64,
modelled as Option Int (none = NULL = still open). -/
structure CompetitionRow where
  tenantID : Int
  id : String
  title : String
  finishedAt : Option Int
  createdAt : Int
  updatedAt : Int
deriving Repr, DecidableEq

/-- PlayerScoreRow (part_000 lines 479-488). -/
structure PlayerScoreRow where
  tenantID : Int
  id : String
  playerID : String
  competitionID : String
  score : Int
  rowNum : Int
  createdAt : Int
  updatedAt : Int
deriving Repr, DecidableEq

/-- PlayerRow (part_000 lines 416-423). -/
structure PlayerRow where
  tenantID : Int
  id : String
  displayName : String
  isDisqualified : Bool
  createdAt : Int
  updatedAt : Int
deriving Repr, DecidableEq

/-- VisitHistoryRow (billing.go lines 22-28). -/
structure VisitHistoryRow where
  playerID : String
  tenantID : Int
  competitionID : String
  createdAt : Int
  updatedAt : Int
deriving Repr, DecidableEq

/-- VisitHistorySummaryRow (billing.go lines 30-35): one row per
(player, competition) pair with the MIN(created_at) of that pair's visits,
as produced by the GROUP BY select in billingReportByCompetition. -/
structure VisitHistorySummaryRow where
  playerID : String
  minCreatedAt : Int
  competitionID : String
  tenantID : Int
deriving Repr, DecidableEq

/-- ScoredPlayer (admin.go lines 102-105): one distinct (player, competition)
pair having at least one player_score row. -/
structure ScoredPlayer where
  id : String
  competitionID : String
deriving Repr, DecidableEq

/-- BillingReport (billing.go lines 12-20). -/
structure BillingReport where
  competitionID : String
  competitionTitle : String
  playerCount : Int
  visitorCount : Int
  billingPlayerYen : Int
  billingVisitorYen : Int
  billingYen : Int
deriving Repr, DecidableEq

/-- TokenData (part_000 lines 261-265), the value type of jwtTokenCache. -/
structure TokenData where
  subject : String
  role : String
  aud : List String
deriving Repr, DecidableEq

/-! ## C9: visit-event flush (delayedInsertVisitHistory, player.go 287-295) -/

/-- State visible to the visit-event recorder: the in-memory buffer held in
the visitHistories cache under key 0, plus the trace of batch insert calls
issued so far; each trace element records the rows handed to one NamedExec
call and whether that call succeeded (its error is discarded either way). -/
structure VisitFlushState where
  buffer : List VisitHistoryRow
  batches : List (List VisitHistoryRow × Bool)
deriving Repr, DecidableEq

/-- delayedInsertVisitHistory (player.go 287-295): reads the whole buffer from
the cache, hands it to a single NamedExec batch insert whose result and error
are both discarded, then stores a fresh empty buffer.  execOk is the outcome
of the NamedExec call; the function ignores it. -/
def delayedInsertVisitHistory (execOk : Bool) (s : VisitFlushState) : VisitFlushState :=
  { buffer := [], batches := s.batches ++ [(s.buffer, execOk)] }

/-- recordVisit, the buffer append performed by competitionRankingHandler
(player.go 203-205) before the ranking read. -/
def recordVisit (row : VisitHistoryRow) (s : VisitFlushState) : VisitFlushState :=
  { s with buffer := s.buffer ++ [row] }

/-! ## C7 and C8: ID dispenser (dispenseID, part_000 lines 111-128) -/

/-- Hexadecimal digits of a natural number, as produced by the %x verb. -/
def natHex (n : Nat) : String := (Nat.toDigits 16 n).asString

/-- Rendering of an int64 by fmt.Sprintf with the %x verb (part_000 line
120): lowercase hexadecimal, with a leading minus sign for negatives. -/
def hexRender (i : Int) : String :=
  if i < 0 then "-" ++ natHex i.natAbs else natHex i.toNat

/-- One dispenseID caller after lazy initialization, reduced to its two
shared-memory accesses.  Step at pc 0 is the increment of curId performed
between dispenseMu.Lock() and dispenseMu.Unlock() (part_000 lines 117-119);
the mutex makes it a single atomic action.  Step at pc 1 is the read of curId
by fmt.Sprintf (line 120), which happens AFTER Unlock and is therefore a
separate atomic action that can interleave with other callers. -/
structure DispenseThread where
  pc : Nat
  ret : Option Int
deriving Repr, DecidableEq

/-- Shared counter curId plus the concurrent dispenseID callers. -/
structure DispenseSystem where
  curId : Int
  threads : List DispenseThread
deriving Repr, DecidableEq

/-- Execute the next program-order step of one thread against the shared
counter: the locked increment, then the unlocked read used for formatting. -/
def dispenseStepThread (curId : Int) (t : DispenseThread) : Int × DispenseThread :=
  match t.pc with
  | 0 => (curId + 1, { pc := 1, ret := t.ret })
  | 1 => (curId, { pc := 2, ret := some curId })
  | _ => (curId, t)

/-- Run a schedule (a list of thread indices) over the shared counter; each
schedule entry lets the named thread take its next atomic step. -/
def dispenseRun (sched : List Nat) (s : DispenseSystem) : DispenseSystem :=
  sched.foldl
    (fun st i =>
      match st.threads[i]? with
      | some t =>
        let r := dispenseStepThread st.curId t
        { curId := r.1, threads := st.threads.set i r.2 }
      | none => st)
    s

/-- The identifier strings returned by the finished threads. -/
def dispenseResults (s : DispenseSystem) : List (Option String) :=
  s.threads.map (fun t => t.ret.map hexRender)

/-- Result of the adminDB.Get call of the lazy initialization (part_000 line
115).  The destination is the int64 VALUE curId, not the pointer to it, so
sqlx has no location to write the selected high-water mark into; it rejects a
non-pointer destination with an error, which the call site discards, and the
caller's counter keeps the value it had.  persistedId is the id_generator row
the query would have returned. -/
def getIdGeneratorIntoValue (curId : Int) (persistedId : Int) : Int := curId

/-- The first dispenseID call after a cold start (curId still -1,
part_000 lines 113-121): lazy init (a no-op on the counter, see
getIdGeneratorIntoValue), locked increment, then the formatted id and the
resulting counter. -/
def dispenseIDFirstCall (persistedId : Int) : String × Int :=
  let c0 := getIdGeneratorIntoValue (-1) persistedId
  let c1 := c0 + 1
  (hexRender c1, c1)

/-- Persistence writes performed by ONE invocation of dispenseUpdate
(part_000 lines 123-128): the function builds a 90-second ticker, waits for a
single tick, executes one UPDATE id_generator with the current counter value
and returns; there is no loop, so the write trace of an invocation has
exactly one element. -/
def dispenseUpdateTrace (curId : Int) : List Int := [curId]

/-! ## C1: ranking engine (competitionRankingHandler, player.go 221-256) -/

/-- CompetitionRank (player.go 141-147).  Rank stays 0 until pagination. -/
structure CompetitionRank where
  rank : Int
  score : Int
  playerID : String
  playerDisplayName : String
  rowNum : Int
deriving Repr, DecidableEq

/-- The rank entry built for one player_score row (player.go 244-249); the
entry's player id is the row's player id (retrievePlayer selects the row
WHERE id = ps.PlayerID) and the display name comes from the player store,
abstracted as the function dn. -/
def mkRank (dn : String → String) (ps : PlayerScoreRow) : CompetitionRank :=
  { rank := 0, score := ps.score, playerID := ps.playerID,
    playerDisplayName := dn ps.playerID, rowNum := ps.rowNum }

/-- Dedup loop of competitionRankingHandler (player.go 231-250): rows arrive
ordered by row_num descending; a player id already in scoredPlayerSet (the
accumulator seen) is skipped, so only each player's first-encountered row,
the one with the largest row_num, produces an entry. -/
def buildRanks (dn : String → String) : List PlayerScoreRow → List String → List CompetitionRank
  | [], _ => []
  | ps :: rest, seen =>
    if ps.playerID ∈ seen then buildRanks dn rest seen
    else mkRank dn ps :: buildRanks dn rest (ps.playerID :: seen)

/-- Comparator handed to sort.Slice (player.go 251-256): score descending,
ties between equal scores by row_num ascending. -/
def rankLess (a b : CompetitionRank) : Bool :=
  if a.score = b.score then decide (a.rowNum < b.rowNum) else decide (b.score < a.score)

/-- Insertion of one entry into an already sorted list.  sort.Slice is an
unstable sort, but rankLess is a strict total order whenever row numbers in
the deduplicated set are distinct, so the sorted permutation is unique and
insertion sort computes exactly what sort.Slice computes. -/
def insertRank (a : CompetitionRank) : List CompetitionRank → List CompetitionRank
  | [] => [a]
  | b :: l => if rankLess a b then a :: b :: l else b :: insertRank a l

/-- Sorting step of competitionRankingHandler (player.go 251-256). -/
def sortRanks : List CompetitionRank → List CompetitionRank
  | [] => []
  | a :: l => insertRank a (sortRanks l)

/-- The full deduplicated and sorted ranking of a competition, from the
player_score rows as delivered by the SQL select ORDER BY row_num DESC. -/
def competitionRanking (dn : String → String) (pss : List PlayerScoreRow) : List CompetitionRank :=
  sortRanks (buildRanks dn pss [])

/-- Pagination step (player.go 257-271): 1-based rank positions over the
full sorted set, restricted to positions strictly after rankAfter, capped at
100 entries, with the row number dropped from the response. -/
def pageRanks (ranks : List CompetitionRank) (rankAfter : Int) : List CompetitionRank :=
  ((ranks.enum.filter (fun e => rankAfter ≤ (e.1 : Int))).take 100).map
    (fun e => { rank := (e.1 : Int) + 1, score := e.2.score, playerID := e.2.playerID,
                playerDisplayName := e.2.playerDisplayName, rowNum := 0 })

/-- Non-strict version of the sort order: what it means for an entry to be
ranked at or above another (score descending, ties by ascending retained
row number). -/
def rankKeyLE (a b : CompetitionRank) : Prop :=
  b.score < a.score ∨ (a.score = b.score ∧ a.rowNum ≤ b.rowNum)

/-- The concrete score set of the specification's ranking scenario, as the
ranking select returns it (ORDER BY row_num DESC): P1 scored 50 at row 1 and
80 at row 2, P2 scored 80 at row 1. -/
def rankingScenarioRows : List PlayerScoreRow :=
  [ { tenantID := 1, id := "s2", playerID := "P1", competitionID := "c1",
      score := 80, rowNum := 2, createdAt := 0, updatedAt := 0 },
    { tenantID := 1, id := "s1", playerID := "P1", competitionID := "c1",
      score := 50, rowNum := 1, createdAt := 0, updatedAt := 0 },
    { tenantID := 1, id := "s3", playerID := "P2", competitionID := "c1",
      score := 80, rowNum := 1, createdAt := 0, updatedAt := 0 } ]

/-! ## C2 and C3: billing aggregation (billingReportByCompetition, billing.go 42-134) -/

/-- One iteration of the visit-history loop (billing.go 67-77): rows of other
competitions are skipped; a visit whose earliest timestamp is after a set
finished_at is skipped; otherwise the player is marked "visitor" in the Go
map billingMap (modelled as an association list, see assocSet). -/
def visitStep (comp : CompetitionRow) (m : List (String × String))
    (row : VisitHistorySummaryRow) : List (String × String) :=
  if row.competitionID = comp.id then
    match comp.finishedAt with
    | some f => if f < row.minCreatedAt then m else assocSet m row.playerID "visitor"
    | none => assocSet m row.playerID "visitor"
  else m

/-- One iteration of the scored-player loop (billing.go 99-106): pairs of
other competitions are skipped; otherwise the player is marked "player",
overwriting a "visitor" mark. -/
def scoredStep (comp : CompetitionRow) (m : List (String × String))
    (sp : ScoredPlayer) : List (String × String) :=
  if sp.competitionID = comp.id then assocSet m sp.id "player" else m

/-- The billingMap of billingReportByCompetition after both loops: first the
visit summaries, then the scored players (billing.go 66-106). -/
def billingMap (comp : CompetitionRow) (vhs : List VisitHistorySummaryRow)
    (sps : List ScoredPlayer) : List (String × String) :=
  sps.foldl (scoredStep comp) (vhs.foldl (visitStep comp) [])

/-- Whether a visit summary row marks its player a visitor of comp
(billing.go 68-75): the row belongs to comp and its earliest visit is not
after a set finish time. -/
def visitorQualifies (comp : CompetitionRow) (row : VisitHistorySummaryRow) : Bool :=
  row.competitionID == comp.id &&
    (match comp.finishedAt with
     | some f => decide (row.minCreatedAt ≤ f)
     | none => true)

/-- The counting loop over billingMap (billing.go 108-119): counts are taken
only when the competition is finished, otherwise both stay zero.  Iteration
order of the Go map does not matter because only the multiset of values is
counted, and assocSet keeps one entry per key. -/
def billingCounts (comp : CompetitionRow) (m : List (String × String)) : Int × Int :=
  match comp.finishedAt with
  | some _ => ((m.countP (fun e => e.2 == "player") : Int),
               (m.countP (fun e => e.2 == "visitor") : Int))
  | none => (0, 0)

/-- The BillingReport value built at billing.go 121-129. -/
def buildBillingReport (comp : CompetitionRow) (vhs : List VisitHistorySummaryRow)
    (sps : List ScoredPlayer) : BillingReport :=
  { competitionID := comp.id
    competitionTitle := comp.title
    playerCount := (billingCounts comp (billingMap comp vhs sps)).1
    visitorCount := (billingCounts comp (billingMap comp vhs sps)).2
    billingPlayerYen := 100 * (billingCounts comp (billingMap comp vhs sps)).1
    billingVisitorYen := 10 * (billingCounts comp (billingMap comp vhs sps)).2
    billingYen := 100 * (billingCounts comp (billingMap comp vhs sps)).1 +
      10 * (billingCounts comp (billingMap comp vhs sps)).2 }

/-- Shorthand for the scored-player condition of billing.go 99-106: the
tenant's scored set contains a pair putting p in comp. -/
def scoredFor (comp : CompetitionRow) (sps : List ScoredPlayer) (p : String) : Prop :=
  ∃ sp ∈ sps, sp.id = p ∧ sp.competitionID = comp.id

/-- Visit window of billing.go 72-75: every set finish time is at or after
the earliest visit (vacuously true while the competition is open). -/
def visitWithinWindow (comp : CompetitionRow) (t : Int) : Prop :=
  ∀ f, comp.finishedAt = some f → t ≤ f

/-! ## C4, C5, C6: the process-wide cache set and its mutations -/

/-- The process-wide helpisu caches (declaration sites: part_000 49, 259,
267, 425, 464; player.go 18, 154, 460; billing.go 37-40), each modelled as an
association list.  Values that the engine never inspects (tenant DB handles,
the JWT key, the tenant-existence marker struct) are modelled as Unit. -/
structure Caches where
  tenantDBCache : List (Int × Unit)
  jwtKeyCache : List (Bool × Unit)
  jwtTokenCache : List (String × TokenData)
  playerCache : List (String × PlayerRow)
  competitionCache : List (String × CompetitionRow)
  tenantCache : List (Int × Unit)
  compFinishCache : List (Nat × List String)
  billingReportCache : List (String × BillingReport)
  vhsCache : List (Int × List VisitHistorySummaryRow)
  scoredPlayerCache : List (Int × List ScoredPlayer)
  visitHistories : List (Nat × List VisitHistoryRow)
deriving DecidableEq

/-- The billing-report cache key (billing.go 44 and 131, player.go 508):
strconv.Itoa of the tenant id concatenated with the competition id string. -/
def brKey (tenantID : Int) (competitionID : String) : String :=
  toString tenantID ++ competitionID

/-- The visit summaries billingReportByCompetition works with (billing.go
55-65): the cached set on a hit, otherwise the rows the GROUP BY select
returns (vhsStore). -/
def vhsUsed (s : Caches) (tenantID : Int) (store : List VisitHistorySummaryRow) :
    List VisitHistorySummaryRow :=
  match assocGet s.vhsCache tenantID with
  | some v => v
  | none => store

/-- The scored pairs billingReportByCompetition works with (billing.go
88-98): the cached set on a hit, otherwise the rows the DISTINCT select
returns (spStore). -/
def spsUsed (s : Caches) (tenantID : Int) (store : List ScoredPlayer) :
    List ScoredPlayer :=
  match assocGet s.scoredPlayerCache tenantID with
  | some v => v
  | none => store

/-- billingReportByCompetition (billing.go 43-134) as a state-passing
function over the cache set: return a cached report unchanged on a hit;
otherwise compute the report, store the visit summaries under the tenant id
(billing.go 78, executed on hit and miss alike, before the scored-player
read, which touches no cache it depends on) and the report under its key
(billing.go 131).  No write to scoredPlayerCache appears in the source. -/
def billingReportByCompetition (s : Caches) (tenantID : Int) (competitionID : String)
    (comp : CompetitionRow) (vhsStore : List VisitHistorySummaryRow)
    (spStore : List ScoredPlayer) : BillingReport × Caches :=
  match assocGet s.billingReportCache (brKey tenantID competitionID) with
  | some r => (r, s)
  | none =>
    (buildBillingReport comp (vhsUsed s tenantID vhsStore) (spsUsed s tenantID spStore),
     { s with
        vhsCache := assocSet s.vhsCache tenantID (vhsUsed s tenantID vhsStore),
        billingReportCache := assocSet s.billingReportCache (brKey tenantID competitionID)
          (buildBillingReport comp (vhsUsed s tenantID vhsStore) (spsUsed s tenantID spStore)) })

/-- Cache effects of competitionFinishHandler (player.go 504-510) after the
finished_at UPDATE: append the report key of the finished competition to the
pending list in compFinishCache slot 0 and evict the competition row. -/
def competitionFinishUpdateCaches (s : Caches) (tenantID : Int) (competitionID : String) :
    Caches :=
  { s with
      compFinishCache := assocSet s.compFinishCache 0
        ((match assocGet s.compFinishCache 0 with
          | some l => l
          | none => []) ++ [brKey tenantID competitionID]),
      competitionCache := assocDelete s.competitionCache competitionID }

/-- updateCompetitionFinish (player.go 514-519), run every 2000 ms by a
ticker started in initializeHandler: GetAndDelete the pending list and delete
each of its keys from the billing-report cache. -/
def updateCompetitionFinish (s : Caches) : Caches :=
  { s with
      compFinishCache := assocDelete s.compFinishCache 0,
      billingReportCache :=
        (match assocGet s.compFinishCache 0 with
         | some l => l
         | none => []).foldl (fun c k => assocDelete c k) s.billingReportCache }

/-- A competition-finish mutation followed by the next tick of the
updateCompetitionFinish background task. -/
def afterFinish (s : Caches) (tenantID : Int) (competitionID : String) : Caches :=
  updateCompetitionFinish (competitionFinishUpdateCaches s tenantID competitionID)

/-- Cache effects of initializeHandler (part_000 531-542): Reset is called on
tenantDBCache, jwtKeyCache, jwtTokenCache, playerCache, competitionCache,
tenantCache, compFinishCache and billingReportCache, and the visit buffer is
replaced by a fresh empty slice; no reset of vhsCache or scoredPlayerCache
appears in the source. -/
def resetAllCaches (s : Caches) : Caches :=
  { s with
      tenantDBCache := [], jwtKeyCache := [], jwtTokenCache := [],
      playerCache := [], competitionCache := [], tenantCache := [],
      compFinishCache := [], billingReportCache := [],
      visitHistories := assocSet s.visitHistories 0 [] }

/-- A cache state with every cache empty, the state at process start. -/
def emptyCaches : Caches :=
  { tenantDBCache := [], jwtKeyCache := [], jwtTokenCache := [],
    playerCache := [], competitionCache := [], tenantCache := [],
    compFinishCache := [], billingReportCache := [],
    vhsCache := [], scoredPlayerCache := [], visitHistories := [] }

/-- A finished competition used in concrete instantiations. -/
def finishedComp : CompetitionRow :=
  { tenantID := 1, id := "c1", title := "t", finishedAt := some 100,
    createdAt := 0, updatedAt := 0 }

/-- A billing report cached while its competition was still open. -/
def staleReport : BillingReport :=
  { competitionID := "3", competitionTitle := "old", playerCount := 0,
    visitorCount := 0, billingPlayerYen := 0, billingVisitorYen := 0, billingYen := 0 }

/-- A cache state holding one billing report, cached for tenant 12 and
competition "3" under the concatenated key "123". -/
def collisionCaches : Caches :=
  { emptyCaches with billingReportCache := [(brKey 12 "3", staleReport)] }

/-- A populated cache state as it can exist right before the /initialize
request: every cache holds one entry. -/
def preResetCaches : Caches :=
  { tenantDBCache := [(1, ())]
    jwtKeyCache := [(true, ())]
    jwtTokenCache := [("tok", { subject := "P3", role := "player", aud := ["x"] })]
    playerCache := [("P3", { tenantID := 1, id := "P3", displayName := "d",
                             isDisqualified := false, createdAt := 0, updatedAt := 0 })]
    competitionCache := [("c1", finishedComp)]
    tenantCache := [(1, ())]
    compFinishCache := [(0, ["1c1"])]
    billingReportCache := [("1c1", staleReport)]
    vhsCache := [(1, [{ playerID := "P3", minCreatedAt := 50, competitionID := "c1",
                        tenantID := 1 }])]
    scoredPlayerCache := [(1, [{ id := "P3", competitionID := "c1" }])]
    visitHistories := [(0, [{ playerID := "P3", tenantID := 1, competitionID := "c1",
                              createdAt := 5, updatedAt := 5 }])] }

/-! ## C10: score upload (competitionScoreHandler, player.go 528-663) -/

/-- Errors the CSV validation of competitionScoreHandler can return before
any row is written (player.go 555-561, 578-580, 599-619). -/
inductive ScoreUploadError where
  | competitionFinished
  | invalidHeaders
  | badColumnCount (rowNum : Int)
  | playerNotFound (playerID : String)
  | invalidScore (scoreStr : String)
deriving Repr, DecidableEq

/-- One entry accumulated into playerScoreRows by the CSV loop (player.go
625-634); the dispensed id and the timestamps are irrelevant to validation
and omitted. -/
structure ScoreEntry where
  playerID : String
  score : Int
  rowNum : Int
deriving Repr, DecidableEq

/-- Digits-only decimal reading of a character list; none when a
non-digit appears. -/
def digitsToNat : List Char → Option Nat → Option Nat
  | [], acc => acc
  | c :: rest, acc =>
    match acc with
    | none => none
    | some n => if c.isDigit then digitsToNat rest (some (n * 10 + (c.toNat - 48))) else none

/-- strconv.ParseInt with base 10 and bitSize 64 (player.go 614): an
optional single leading sign, at least one digit, all characters digits, and
the value within the int64 range; anything else is an error, modelled as
none. -/
def goParseInt64 (s : String) : Option Int :=
  let withSign : Bool × List Char :=
    match s.data with
    | '+' :: rest => (false, rest)
    | '-' :: rest => (true, rest)
    | cs => (false, cs)
  if withSign.2.isEmpty then none
  else
    match digitsToNat withSign.2 (some 0) with
    | none => none
    | some n =>
      let v : Int := if withSign.1 then -(n : Int) else (n : Int)
      if -(2 ^ 63) ≤ v ∧ v ≤ 2 ^ 63 - 1 then some v else none

/-- The row loop of competitionScoreHandler (player.go 588-635): rowNum is
incremented before each read, a row must have exactly two columns, its
player id must resolve in the player store (retrievePlayer, player.go 603),
and its score must parse as an int64; the first offending row aborts the
whole upload with an error. -/
def parseScoreRows (playerExists : String → Bool) :
    List (List String) → Int → Except ScoreUploadError (List ScoreEntry)
  | [], _ => .ok []
  | row :: rest, rowNum =>
    match row with
    | [playerID, scoreStr] =>
      if playerExists playerID then
        match goParseInt64 scoreStr with
        | some score =>
          match parseScoreRows playerExists rest (rowNum + 1) with
          | .ok entries => .ok ({ playerID := playerID, score := score, rowNum := rowNum } :: entries)
          | .error e => .error e
        | none => .error (.invalidScore scoreStr)
      else .error (.playerNotFound playerID)
    | _ => .error (.badColumnCount rowNum)

/-- Validation phase of competitionScoreHandler (player.go 543-635): reject a
finished competition, then a header row different from (player_id, score),
then run the row loop starting at rowNum 1. -/
def competitionScoreUpload (comp : CompetitionRow) (headers : List String)
    (rows : List (List String)) (playerExists : String → Bool) :
    Except ScoreUploadError (List ScoreEntry) :=
  if comp.finishedAt.isSome then .error .competitionFinished
  else if headers ≠ ["player_id", "score"] then .error .invalidHeaders
  else parseScoreRows playerExists rows 1

/-- The competition's stored score rows after the handler runs: the DELETE
and the bulk INSERT (player.go 637-657) execute only after the whole CSV has
validated, so a validation error returns before them and the stored set is
untouched, while success replaces the set with the parsed rows. -/
def scoreRowsAfterUpload (initial : List ScoreEntry) (comp : CompetitionRow)
    (headers : List String) (rows : List (List String)) (playerExists : String → Bool) :
    List ScoreEntry :=
  match competitionScoreUpload comp headers rows playerExists with
  | .ok entries => entries
  | .error _ => initial

/-- Whether a CSV data row fails validation: wrong column count, unknown
player id, or unparsable score. -/
def rowInvalid (playerExists : String → Bool) (row : List String) : Prop :=
  (∀ playerID scoreStr, row ≠ [playerID, scoreStr]) ∨
  (∃ playerID scoreStr, row = [playerID, scoreStr] ∧ playerExists playerID = false) ∨
  (∃ playerID scoreStr, row = [playerID, scoreStr] ∧ playerExists playerID = true ∧
    goParseInt64 scoreStr = none)

/-! ## Theorems -/

theorem assocGet_nil {K V : Type} [BEq K] (k : K) :
    assocGet ([] : List (K × V)) k = none := rfl

theorem assocGet_cons {K V : Type} [BEq K] (e : K × V) (t : List (K × V)) (k : K) :
    assocGet (e :: t) k = if e.1 == k then some e.2 else assocGet t k := by
  by_cases he : e.1 == k <;> simp [assocGet, List.find?, he]

theorem assocGet_append {K V : Type} [BEq K] (c1 c2 : List (K × V)) (k : K) :
    assocGet (c1 ++ c2) k =
      match assocGet c1 k with
      | some v => some v
      | none => assocGet c2 k := by
  induction c1 with
  | nil => simp [assocGet_nil]
  | cons e t ih =>
    by_cases he : e.1 == k <;> simp [assocGet_cons, he, ih]

theorem assocGet_none_of_not_any {K V : Type} [BEq K] {c : List (K × V)} {k : K}
    (h : ¬ c.any (fun e => e.1 == k)) : assocGet c k = none := by
  induction c with
  | nil => rfl
  | cons e t ih =>
    have he : ¬(e.1 == k) = true := fun hk => h (by simp [List.any_cons, hk])
    have ht : ¬ t.any (fun e => e.1 == k) = true := fun hk => h (by simp [List.any_cons, hk])
    simp [assocGet_cons, he, ih ht]

theorem assocGet_replace_self {K V : Type} [BEq K] [LawfulBEq K]
    {c : List (K × V)} {k : K} (v : V) (h : c.any (fun e => e.1 == k)) :
    assocGet (c.map (fun e => if e.1 == k then (k, v) else e)) k = some v := by
  induction c with
  | nil => simp at h
  | cons e t ih =>
    by_cases he : e.1 == k
    · simp [assocGet_cons, he]
    · have ht : t.any (fun e => e.1 == k) := by
        simp only [List.any_cons, he, Bool.false_or] at h
        exact h
      simp [assocGet_cons, he, ih ht]

theorem assocGet_replace_ne {K V : Type} [BEq K] [LawfulBEq K]
    (c : List (K × V)) (k k2 : K) (v : V) (h : k2 ≠ k) :
    assocGet (c.map (fun e => if e.1 == k then (k, v) else e)) k2 = assocGet c k2 := by
  induction c with
  | nil => rfl
  | cons e t ih =>
    by_cases he : e.1 == k
    · have hkk : ¬((k : K) == k2) = true := by
        simp only [beq_iff_eq]
        intro hk; exact h hk.symm
      have hne : ¬(e.1 == k2) = true := by
        simp only [beq_iff_eq] at he ⊢
        intro hk; exact h (by rw [← hk, he])
      simp [assocGet_cons, he, hkk, hne, ih]
    · by_cases he2 : e.1 == k2 <;> simp [assocGet_cons, he, he2, ih]

theorem assocGet_set_self {K V : Type} [BEq K] [LawfulBEq K]
    (c : List (K × V)) (k : K) (v : V) : assocGet (assocSet c k v) k = some v := by
  unfold assocSet
  by_cases h : c.any (fun e => e.1 == k)
  · simpa [h] using assocGet_replace_self v h
  · rw [if_neg h, assocGet_append, assocGet_none_of_not_any h]
    simp [assocGet_cons]

theorem assocGet_set_ne {K V : Type} [BEq K] [LawfulBEq K]
    (c : List (K × V)) (k k2 : K) (v : V) (h : k2 ≠ k) :
    assocGet (assocSet c k v) k2 = assocGet c k2 := by
  unfold assocSet
  by_cases hc : c.any (fun e => e.1 == k)
  · simpa [hc] using assocGet_replace_ne c k k2 v h
  · have hkk : ¬((k : K) == k2) = true := by
      simp only [beq_iff_eq]
      intro hk; exact h hk.symm
    rw [if_neg hc, assocGet_append]
    cases hg : assocGet c k2 with
    | some v2 => simp
    | none => simp [assocGet_cons, hkk, assocGet_nil]

theorem assocGet_delete_self {K V : Type} [BEq K] [LawfulBEq K]
    (c : List (K × V)) (k : K) : assocGet (assocDelete c k) k = none := by
  unfold assocDelete
  induction c with
  | nil => rfl
  | cons e t ih =>
    by_cases he : e.1 == k
    · simpa [List.filter_cons, he] using ih
    · simpa [List.filter_cons, he, assocGet_cons] using ih

theorem assocGet_delete_ne {K V : Type} [BEq K] [LawfulBEq K]
    (c : List (K × V)) (k k2 : K) (h : k2 ≠ k) :
    assocGet (assocDelete c k) k2 = assocGet c k2 := by
  unfold assocDelete
  induction c with
  | nil => rfl
  | cons e t ih =>
    by_cases he : e.1 == k
    · have hne : ¬(e.1 == k2) = true := by
        simp only [beq_iff_eq] at he ⊢
        intro hk; exact h (by rw [← hk, he])
      simpa [List.filter_cons, he, assocGet_cons, hne] using ih
    · by_cases he2 : e.1 == k2 <;>
        simp [List.filter_cons, he, he2, assocGet_cons, ih]

theorem assocGet_mem {K V : Type} [BEq K] [LawfulBEq K]
    {c : List (K × V)} {k : K} {v : V} (h : assocGet c k = some v) : (k, v) ∈ c := by
  induction c with
  | nil => simp [assocGet_nil] at h
  | cons e t ih =>
    rw [assocGet_cons] at h
    by_cases he : e.1 == k
    · rw [if_pos he] at h
      have hk : e.1 = k := by simpa [beq_iff_eq] using he
      have hv : e.2 = v := by simpa using h
      have he2 : e = (k, v) := by
        calc e = (e.1, e.2) := rfl
          _ = (k, v) := by rw [hk, hv]
      rw [he2]
      exact List.mem_cons_self _ _
    · rw [if_neg he] at h
      right
      exact ih h

theorem rankKeyLE_trans {a b c : CompetitionRank}
    (h1 : rankKeyLE a b) (h2 : rankKeyLE b c) : rankKeyLE a c := by
  unfold rankKeyLE at h1 h2 ⊢
  rcases h1 with h1 | ⟨h1e, h1r⟩ <;> rcases h2 with h2 | ⟨h2e, h2r⟩
  · exact Or.inl (lt_trans h2 h1)
  · exact Or.inl (h2e ▸ h1)
  · exact Or.inl (by rw [h1e]; exact h2)
  · exact Or.inr ⟨h1e.trans h2e, le_trans h1r h2r⟩

theorem rankKeyLE_of_rankLess_false {a b : CompetitionRank}
    (h : rankLess a b = false) : rankKeyLE b a := by
  unfold rankLess at h
  unfold rankKeyLE
  by_cases he : a.score = b.score
  · rw [if_pos he] at h
    simp only [decide_eq_false_iff_not, not_lt] at h
    exact Or.inr ⟨he.symm, h⟩
  · rw [if_neg he] at h
    simp only [decide_eq_false_iff_not, not_lt] at h
    exact Or.inl (lt_of_le_of_ne h (fun hh => he hh))

theorem rankKeyLE_of_rankLess_true {a b : CompetitionRank}
    (h : rankLess a b = true) : rankKeyLE a b := by
  unfold rankLess at h
  unfold rankKeyLE
  by_cases he : a.score = b.score
  · rw [if_pos he] at h
    simp only [decide_eq_true_eq] at h
    exact Or.inr ⟨he, le_of_lt h⟩
  · rw [if_neg he] at h
    simp only [decide_eq_true_eq] at h
    exact Or.inl h

theorem mem_insertRank {x a : CompetitionRank} {l : List CompetitionRank} :
    x ∈ insertRank a l ↔ x = a ∨ x ∈ l := by
  induction l with
  | nil => simp [insertRank]
  | cons b t ih =>
    by_cases hab : rankLess a b
    · rw [insertRank, if_pos hab]
      simp [List.mem_cons]
    · rw [insertRank, if_neg hab]
      simp only [List.mem_cons, ih]
      tauto

theorem insertRank_perm (a : CompetitionRank) (l : List CompetitionRank) :
    List.Perm (insertRank a l) (a :: l) := by
  induction l with
  | nil => exact List.Perm.refl _
  | cons b t ih =>
    by_cases hab : rankLess a b
    · rw [insertRank, if_pos hab]
    · rw [insertRank, if_neg hab]
      exact (List.Perm.cons b ih).trans (List.Perm.swap a b t)

theorem sortRanks_perm (l : List CompetitionRank) : List.Perm (sortRanks l) l := by
  induction l with
  | nil => exact List.Perm.refl _
  | cons a t ih => exact (insertRank_perm a (sortRanks t)).trans (List.Perm.cons a ih)

theorem pairwise_insertRank (a : CompetitionRank) {l : List CompetitionRank}
    (h : l.Pairwise rankKeyLE) : (insertRank a l).Pairwise rankKeyLE := by
  induction l with
  | nil => simp [insertRank]
  | cons b t ih =>
    rw [List.pairwise_cons] at h
    obtain ⟨hb, ht⟩ := h
    by_cases hab : rankLess a b
    · rw [insertRank, if_pos hab]
      have hableq := rankKeyLE_of_rankLess_true hab
      refine List.Pairwise.cons ?_ (List.Pairwise.cons hb ht)
      intro x hx
      rcases List.mem_cons.1 hx with he | hxt
      · rw [he]; exact hableq
      · exact rankKeyLE_trans hableq (hb x hxt)
    · rw [insertRank, if_neg hab]
      have hba := rankKeyLE_of_rankLess_false (by simpa using hab)
      refine List.Pairwise.cons ?_ (ih ht)
      intro x hx
      rcases mem_insertRank.1 hx with he | hxt
      · rw [he]; exact hba
      · exact hb x hxt

theorem sortRanks_pairwise (l : List CompetitionRank) :
    (sortRanks l).Pairwise rankKeyLE := by
  induction l with
  | nil => simp [sortRanks]
  | cons a t ih => exact pairwise_insertRank a ih

theorem buildRanks_not_seen (dn : String → String) :
    ∀ (pss : List PlayerScoreRow) (seen : List String) (r : CompetitionRank),
      r ∈ buildRanks dn pss seen → r.playerID ∉ seen := by
  intro pss
  induction pss with
  | nil => intro seen r h; simp [buildRanks] at h
  | cons ps rest ih =>
    intro seen r h
    rw [buildRanks] at h
    by_cases hs : ps.playerID ∈ seen
    · rw [if_pos hs] at h
      exact ih seen r h
    · rw [if_neg hs] at h
      rcases List.mem_cons.1 h with he | ht
      · rw [he]; simpa [mkRank] using hs
      · intro hmem
        exact ih _ r ht (List.mem_cons_of_mem _ hmem)

theorem buildRanks_mem_playerID (dn : String → String) :
    ∀ (pss : List PlayerScoreRow) (seen : List String) (p : String),
      p ∈ (buildRanks dn pss seen).map (fun r => r.playerID) ↔
        (p ∈ pss.map (fun ps => ps.playerID) ∧ p ∉ seen) := by
  intro pss
  induction pss with
  | nil => simp [buildRanks]
  | cons ps rest ih =>
    intro seen p
    rw [buildRanks]
    by_cases hs : ps.playerID ∈ seen
    · rw [if_pos hs, ih]
      simp only [List.map_cons, List.mem_cons]
      constructor
      · rintro ⟨h1, h2⟩
        exact ⟨Or.inr h1, h2⟩
      · rintro ⟨h1 | h1, h2⟩
        · exact absurd (h1 ▸ hs) h2
        · exact ⟨h1, h2⟩
    · rw [if_neg hs]
      simp only [List.map_cons, List.mem_cons, mkRank]
      rw [ih]
      simp only [List.mem_cons, not_or]
      constructor
      · rintro (h1 | ⟨h2, h3, h4⟩)
        · exact ⟨Or.inl h1, h1 ▸ hs⟩
        · exact ⟨Or.inr h2, h4⟩
      · rintro ⟨h1 | h1, h2⟩
        · exact Or.inl h1
        · by_cases hp : p = ps.playerID
          · exact Or.inl hp
          · exact Or.inr ⟨h1, hp, h2⟩

theorem buildRanks_nodup (dn : String → String) :
    ∀ (pss : List PlayerScoreRow) (seen : List String),
      ((buildRanks dn pss seen).map (fun r => r.playerID)).Nodup := by
  intro pss
  induction pss with
  | nil => simp [buildRanks]
  | cons ps rest ih =>
    intro seen
    rw [buildRanks]
    by_cases hs : ps.playerID ∈ seen
    · rw [if_pos hs]
      exact ih seen
    · rw [if_neg hs]
      simp only [List.map_cons]
      refine List.nodup_cons.mpr ⟨?_, ih _⟩
      intro hmem
      rw [buildRanks_mem_playerID] at hmem
      exact hmem.2 (List.mem_cons_self _ _)

theorem buildRanks_max (dn : String → String) :
    ∀ (pss : List PlayerScoreRow) (seen : List String),
      pss.Pairwise (fun a b => b.rowNum ≤ a.rowNum) →
      ∀ r ∈ buildRanks dn pss seen, ∃ ps, ps ∈ pss ∧ ps.playerID = r.playerID ∧
        r.score = ps.score ∧ r.rowNum = ps.rowNum ∧
        ∀ ps2 ∈ pss, ps2.playerID = r.playerID → ps2.rowNum ≤ ps.rowNum := by
  intro pss
  induction pss with
  | nil => intro seen _ r h; simp [buildRanks] at h
  | cons ps rest ih =>
    intro seen hsort r hr
    rw [List.pairwise_cons] at hsort
    obtain ⟨hhead, htail⟩ := hsort
    rw [buildRanks] at hr
    by_cases hs : ps.playerID ∈ seen
    · rw [if_pos hs] at hr
      obtain ⟨q, hq1, hq2, hq3, hq4, hq5⟩ := ih seen htail r hr
      refine ⟨q, List.mem_cons_of_mem _ hq1, hq2, hq3, hq4, ?_⟩
      intro ps2 hps2 hpid
      rcases List.mem_cons.1 hps2 with he | ht2
      · have hns := buildRanks_not_seen dn rest seen r hr
        rw [he] at hpid
        exact absurd (hpid ▸ hs) hns
      · exact hq5 ps2 ht2 hpid
    · rw [if_neg hs] at hr
      rcases List.mem_cons.1 hr with he | ht
      · refine ⟨ps, List.mem_cons_self _ _, ?_, ?_, ?_, ?_⟩
        · rw [he]; rfl
        · rw [he]; rfl
        · rw [he]; rfl
        · intro ps2 hps2 hpid
          rcases List.mem_cons.1 hps2 with he2 | ht2
          · rw [he2]
          · exact hhead ps2 ht2
      · obtain ⟨q, hq1, hq2, hq3, hq4, hq5⟩ := ih _ htail r ht
        refine ⟨q, List.mem_cons_of_mem _ hq1, hq2, hq3, hq4, ?_⟩
        intro ps2 hps2 hpid
        rcases List.mem_cons.1 hps2 with he2 | ht2
        · have hns := buildRanks_not_seen dn rest _ r ht
          rw [he2] at hpid
          exact absurd (by rw [← hpid]; exact List.mem_cons_self _ _) hns
        · exact hq5 ps2 ht2 hpid

/-- C1.  For every ranking read of a competition (score rows delivered in
row_num-descending order), each player contributes exactly one entry, namely
the score and row number of their record with the largest row number; the
entries are ordered by score descending with ties between equal scores broken
by ascending retained row number; and on the scenario rows
(P1: 50 at row 1, P1: 80 at row 2, P2: 80 at row 1) P2 is ranked above P1,
because dedup happens before the tie-break comparison and uses each player's
retained row number. -/
theorem competitionRanking_correct (dn : String → String) (pss : List PlayerScoreRow)
    (hsort : pss.Pairwise (fun a b => b.rowNum ≤ a.rowNum)) :
    ((competitionRanking dn pss).map (fun r => r.playerID)).Nodup ∧
    (∀ p, p ∈ (competitionRanking dn pss).map (fun r => r.playerID) ↔
      p ∈ pss.map (fun ps => ps.playerID)) ∧
    (∀ r ∈ competitionRanking dn pss, ∃ ps, ps ∈ pss ∧ ps.playerID = r.playerID ∧
      r.score = ps.score ∧ r.rowNum = ps.rowNum ∧
      ∀ ps2 ∈ pss, ps2.playerID = r.playerID → ps2.rowNum ≤ ps.rowNum) ∧
    ((competitionRanking dn pss).Pairwise rankKeyLE) ∧
    (competitionRanking dn rankingScenarioRows =
      [ { rank := 0, score := 80, playerID := "P2", playerDisplayName := dn "P2", rowNum := 1 },
        { rank := 0, score := 80, playerID := "P1", playerDisplayName := dn "P1", rowNum := 2 } ]) := by
  have hperm : List.Perm (competitionRanking dn pss) (buildRanks dn pss []) :=
    sortRanks_perm _
  refine ⟨?_, ?_, ?_, ?_, ?_⟩
  · exact ((hperm.map (fun r => r.playerID)).nodup_iff).mpr (buildRanks_nodup dn pss [])
  · intro p
    rw [(hperm.map (fun r => r.playerID)).mem_iff, buildRanks_mem_playerID]
    simp
  · intro r hr
    exact buildRanks_max dn pss [] hsort r (hperm.mem_iff.mp hr)
  · exact sortRanks_pairwise _
  · rfl

/-- Witness for C1: the scenario rows satisfy the row_num-descending
hypothesis, and the ranking computed on them places P2 (score 80, retained
row 1) above P1 (score 80, retained row 2). -/
theorem competitionRanking_correct_witness :
    List.Pairwise (fun a b => b.rowNum ≤ a.rowNum) rankingScenarioRows ∧
    competitionRanking (fun _ => "") rankingScenarioRows =
      [ { rank := 0, score := 80, playerID := "P2", playerDisplayName := "", rowNum := 1 },
        { rank := 0, score := 80, playerID := "P1", playerDisplayName := "", rowNum := 2 } ] :=
  ⟨by decide,
   (competitionRanking_correct (fun _ => "") rankingScenarioRows (by decide)).2.2.2.2⟩

theorem visitPass_get (comp : CompetitionRow) (p : String) :
    ∀ (vhs : List VisitHistorySummaryRow) (m0 : List (String × String)),
      assocGet (vhs.foldl (visitStep comp) m0) p =
        if vhs.any (fun row => row.playerID == p && visitorQualifies comp row)
        then some "visitor" else assocGet m0 p := by
  intro vhs
  induction vhs with
  | nil => intro m0; simp
  | cons row t ih =>
    intro m0
    rw [List.foldl_cons, ih]
    by_cases hq : (row.playerID == p && visitorQualifies comp row) = true
    · simp only [List.any_cons, hq, Bool.true_or, if_true]
      by_cases ht : t.any (fun row => row.playerID == p && visitorQualifies comp row)
      · rw [if_pos ht]
      · rw [if_neg ht]
        rw [Bool.and_eq_true] at hq
        have hpid : row.playerID = p := beq_iff_eq.1 hq.1
        have hqual := hq.2
        unfold visitorQualifies at hqual
        rw [Bool.and_eq_true] at hqual
        have hcomp : row.competitionID = comp.id := beq_iff_eq.1 hqual.1
        cases hfin : comp.finishedAt with
        | none =>
          simp only [visitStep, hcomp, hfin, if_pos]
          rw [hpid]
          exact assocGet_set_self m0 p "visitor"
        | some f =>
          have hwin := hqual.2
          rw [hfin] at hwin
          have hle : row.minCreatedAt ≤ f := by simpa using hwin
          have hnlt : ¬ f < row.minCreatedAt := by omega
          simp only [visitStep, hcomp, hfin, if_pos, if_neg hnlt]
          rw [hpid]
          exact assocGet_set_self m0 p "visitor"
    · simp only [List.any_cons, hq, Bool.false_or]
      by_cases ht : t.any (fun row => row.playerID == p && visitorQualifies comp row)
      · rw [if_pos ht, if_pos ht]
      · rw [if_neg ht, if_neg ht]
        by_cases hcomp : row.competitionID = comp.id
        · by_cases hpid : row.playerID = p
          · cases hfin : comp.finishedAt with
            | none =>
              exfalso
              exact hq (by simp [visitorQualifies, hpid, hcomp, hfin])
            | some f =>
              by_cases hlt : f < row.minCreatedAt
              · simp [visitStep, hcomp, hfin, hlt]
              · exfalso
                apply hq
                have hle : row.minCreatedAt ≤ f := by omega
                simp [visitorQualifies, hpid, hcomp, hfin, hle]
          · cases hfin : comp.finishedAt with
            | none =>
              simp only [visitStep, hcomp, hfin, if_pos]
              exact assocGet_set_ne m0 row.playerID p "visitor" (fun hh => hpid hh.symm)
            | some f =>
              by_cases hlt : f < row.minCreatedAt
              · simp [visitStep, hcomp, hfin, hlt]
              · simp only [visitStep, hcomp, hfin, if_pos, if_neg hlt]
                exact assocGet_set_ne m0 row.playerID p "visitor" (fun hh => hpid hh.symm)
        · simp [visitStep, hcomp]

theorem scoredPass_get (comp : CompetitionRow) (p : String) :
    ∀ (sps : List ScoredPlayer) (m0 : List (String × String)),
      assocGet (sps.foldl (scoredStep comp) m0) p =
        if sps.any (fun sp => sp.id == p && sp.competitionID == comp.id)
        then some "player" else assocGet m0 p := by
  intro sps
  induction sps with
  | nil => intro m0; simp
  | cons sp t ih =>
    intro m0
    rw [List.foldl_cons, ih]
    by_cases hq : (sp.id == p && sp.competitionID == comp.id) = true
    · simp only [List.any_cons, hq, Bool.true_or, if_true]
      by_cases ht : t.any (fun sp => sp.id == p && sp.competitionID == comp.id)
      · rw [if_pos ht]
      · rw [if_neg ht]
        rw [Bool.and_eq_true] at hq
        have hpid : sp.id = p := beq_iff_eq.1 hq.1
        have hcomp : sp.competitionID = comp.id := beq_iff_eq.1 hq.2
        simp only [scoredStep, hcomp, if_pos]
        rw [hpid]
        exact assocGet_set_self m0 p "player"
    · simp only [List.any_cons, hq, Bool.false_or]
      by_cases ht : t.any (fun sp => sp.id == p && sp.competitionID == comp.id)
      · rw [if_pos ht, if_pos ht]
      · rw [if_neg ht, if_neg ht]
        by_cases hcomp : sp.competitionID = comp.id
        · by_cases hpid : sp.id = p
          · exfalso
            exact hq (by simp [hpid, hcomp])
          · simp only [scoredStep, hcomp, if_pos]
            exact assocGet_set_ne m0 sp.id p "player" (fun hh => hpid hh.symm)
        · simp [scoredStep, hcomp]

theorem billingMap_get (comp : CompetitionRow) (vhs : List VisitHistorySummaryRow)
    (sps : List ScoredPlayer) (p : String) :
    assocGet (billingMap comp vhs sps) p =
      if sps.any (fun sp => sp.id == p && sp.competitionID == comp.id) then some "player"
      else if vhs.any (fun row => row.playerID == p && visitorQualifies comp row)
      then some "visitor" else none := by
  unfold billingMap
  rw [scoredPass_get, visitPass_get]
  rfl

/-- C2.  Classification by computeBillingReport: a player is classified
"player" exactly when the tenant's scored set has a pair putting them in the
competition; given the (at most one per pair, from the GROUP BY) visit
summary row of a player for the competition, the player is classified
"visitor" exactly when they did not score and their earliest visit is at or
before every set finish time (all visits count while the competition is
open); and no player is classified both ways, since the map holds one label
per player. -/
theorem billingMap_classification (comp : CompetitionRow)
    (vhs : List VisitHistorySummaryRow) (sps : List ScoredPlayer) (p : String)
    (hvhs : ∀ r1 ∈ vhs, ∀ r2 ∈ vhs, r1.playerID = p → r2.playerID = p →
      r1.competitionID = comp.id → r2.competitionID = comp.id → r1 = r2) :
    (assocGet (billingMap comp vhs sps) p = some "player" ↔ scoredFor comp sps p) ∧
    (∀ row ∈ vhs, row.playerID = p → row.competitionID = comp.id →
      (assocGet (billingMap comp vhs sps) p = some "visitor" ↔
        (¬ scoredFor comp sps p ∧ visitWithinWindow comp row.minCreatedAt))) ∧
    ¬ (assocGet (billingMap comp vhs sps) p = some "player" ∧
       assocGet (billingMap comp vhs sps) p = some "visitor") := by
  have hget := billingMap_get comp vhs sps p
  have hscored : (sps.any (fun sp => sp.id == p && sp.competitionID == comp.id)) = true ↔
      scoredFor comp sps p := by
    rw [List.any_eq_true]
    unfold scoredFor
    constructor
    · rintro ⟨sp, hsp, hb⟩
      rw [Bool.and_eq_true] at hb
      exact ⟨sp, hsp, beq_iff_eq.1 hb.1, beq_iff_eq.1 hb.2⟩
    · rintro ⟨sp, hsp, h1, h2⟩
      exact ⟨sp, hsp, by simp [h1, h2]⟩
  refine ⟨?_, ?_, ?_⟩
  · rw [hget]
    by_cases hs : sps.any (fun sp => sp.id == p && sp.competitionID == comp.id)
    · simp only [hs, if_true]
      simp [hscored.1 hs]
    · simp only [hs, if_false]
      constructor
      · intro hh
        by_cases hv : vhs.any (fun row => row.playerID == p && visitorQualifies comp row) <;>
          simp [hv] at hh
      · intro hh
        exact absurd (hscored.2 hh) hs
  · intro row hrow hpid hcomp
    rw [hget]
    by_cases hs : sps.any (fun sp => sp.id == p && sp.competitionID == comp.id)
    · simp only [hs, if_true]
      constructor
      · intro hh; simp at hh
      · rintro ⟨hns, _⟩
        exact absurd (hscored.1 hs) hns
    · simp only [hs, if_false]
      have hnotscored : ¬ scoredFor comp sps p := fun hh => hs (hscored.2 hh)
      by_cases hv : vhs.any (fun row => row.playerID == p && visitorQualifies comp row)
      · simp only [hv, if_true]
        constructor
        · intro _
          refine ⟨hnotscored, ?_⟩
          rw [List.any_eq_true] at hv
          obtain ⟨row2, hrow2, hb⟩ := hv
          rw [Bool.and_eq_true] at hb
          have hpid2 : row2.playerID = p := beq_iff_eq.1 hb.1
          have hqual := hb.2
          unfold visitorQualifies at hqual
          rw [Bool.and_eq_true] at hqual
          have hcomp2 : row2.competitionID = comp.id := beq_iff_eq.1 hqual.1
          have heq : row2 = row := hvhs row2 hrow2 row hrow hpid2 hpid hcomp2 hcomp
          intro f hf
          have hwin := hqual.2
          rw [hf] at hwin
          have := of_decide_eq_true hwin
          rw [← heq]
          exact this
        · intro _; rfl
      · simp only [hv, if_false]
        constructor
        · intro hh; simp at hh
        · rintro ⟨_, hwin⟩
          exfalso
          apply hv
          rw [List.any_eq_true]
          refine ⟨row, hrow, ?_⟩
          rw [Bool.and_eq_true]
          refine ⟨beq_iff_eq.2 hpid, ?_⟩
          unfold visitorQualifies
          rw [Bool.and_eq_true]
          refine ⟨beq_iff_eq.2 hcomp, ?_⟩
          cases hfin : comp.finishedAt with
          | none => rfl
          | some f =>
            have := hwin f hfin
            simpa using this
  · rw [hget]
    by_cases hs : sps.any (fun sp => sp.id == p && sp.competitionID == comp.id)
    · simp [hs]
    · by_cases hv : vhs.any (fun row => row.playerID == p && visitorQualifies comp row) <;>
        simp [hs, hv]

/-- Witness for C2: a finished competition with one within-window visit
summary row and one scored pair for the same player; the theorem applies and
the player is classified "player". -/
theorem billingMap_classification_witness :
    (∀ r1 ∈ [VisitHistorySummaryRow.mk "P3" 50 "c1" 1],
      ∀ r2 ∈ [VisitHistorySummaryRow.mk "P3" 50 "c1" 1], r1.playerID = "P3" →
        r2.playerID = "P3" → r1.competitionID = "c1" → r2.competitionID = "c1" → r1 = r2) ∧
    (assocGet (billingMap (CompetitionRow.mk 1 "c1" "t" (some 100) 0 0)
        [VisitHistorySummaryRow.mk "P3" 50 "c1" 1] [ScoredPlayer.mk "P3" "c1"]) "P3" =
          some "player" ↔
      scoredFor (CompetitionRow.mk 1 "c1" "t" (some 100) 0 0) [ScoredPlayer.mk "P3" "c1"] "P3") :=
  ⟨by decide,
   (billingMap_classification (CompetitionRow.mk 1 "c1" "t" (some 100) 0 0)
     [VisitHistorySummaryRow.mk "P3" 50 "c1" 1] [ScoredPlayer.mk "P3" "c1"] "P3"
     (by decide)).1⟩

/-- C3.  Amounts of the billing report: while the competition is unfinished
both counts are frozen at zero, making every billed amount zero regardless of
the recorded scores and visits; once finished, the counts are the "player"
and "visitor" label counts of the billing map, the per-category amounts are
100 yen and 10 yen times those counts, and the total is their sum. -/
theorem billingReport_amounts (comp : CompetitionRow)
    (vhs : List VisitHistorySummaryRow) (sps : List ScoredPlayer) :
    match comp.finishedAt with
    | none =>
      (buildBillingReport comp vhs sps).playerCount = 0 ∧
      (buildBillingReport comp vhs sps).visitorCount = 0 ∧
      (buildBillingReport comp vhs sps).billingPlayerYen = 0 ∧
      (buildBillingReport comp vhs sps).billingVisitorYen = 0 ∧
      (buildBillingReport comp vhs sps).billingYen = 0
    | some _ =>
      (buildBillingReport comp vhs sps).playerCount =
        ((billingMap comp vhs sps).countP (fun e => e.2 == "player") : Int) ∧
      (buildBillingReport comp vhs sps).visitorCount =
        ((billingMap comp vhs sps).countP (fun e => e.2 == "visitor") : Int) ∧
      (buildBillingReport comp vhs sps).billingPlayerYen =
        100 * (buildBillingReport comp vhs sps).playerCount ∧
      (buildBillingReport comp vhs sps).billingVisitorYen =
        10 * (buildBillingReport comp vhs sps).visitorCount ∧
      (buildBillingReport comp vhs sps).billingYen =
        100 * (buildBillingReport comp vhs sps).playerCount +
          10 * (buildBillingReport comp vhs sps).visitorCount := by
  cases hfin : comp.finishedAt with
  | none => simp [buildBillingReport, billingCounts, hfin]
  | some f => simp [buildBillingReport, billingCounts, hfin]

/-- Counterexample to C4 as stated: the report cache key conflates distinct
(tenant, competition) pairs, because brKey 1 "23" and brKey 12 "3" are both
the string "123".  Tenant 12's cached report for competition "3" is present
before tenant 1 finishes its competition "23", and deleted afterwards, even
though (12, "3") is a different pair from (1, "23") and was never finished —
so more than "only that entry" is deleted at the pair level. -/
theorem brKey_collision_evicts_other_pair :
    brKey 12 "3" = brKey 1 "23" ∧
    ((12 : Int), "3") ≠ ((1 : Int), "23") ∧
    assocGet collisionCaches.billingReportCache (brKey 12 "3") = some staleReport ∧
    assocGet (afterFinish collisionCaches 1 "23").billingReportCache (brKey 12 "3") = none := by
  refine ⟨rfl, by decide, rfl, ?_⟩
  rfl

theorem billingMap_player_mem {comp : CompetitionRow} {vhs : List VisitHistorySummaryRow}
    {sps : List ScoredPlayer} {p : String} (h : scoredFor comp sps p) :
    ∃ e ∈ billingMap comp vhs sps, e.2 = "player" := by
  obtain ⟨sp, hsp, h1, h2⟩ := h
  have hb : sps.any (fun sp => sp.id == p && sp.competitionID == comp.id) = true := by
    rw [List.any_eq_true]
    exact ⟨sp, hsp, by simp [h1, h2]⟩
  have hget := billingMap_get comp vhs sps p
  rw [if_pos hb] at hget
  exact ⟨(p, "player"), assocGet_mem hget, rfl⟩

theorem buildBillingReport_player_lb (comp : CompetitionRow)
    (vhs : List VisitHistorySummaryRow) (sps : List ScoredPlayer) (f : Int) (p : String)
    (hfin : comp.finishedAt = some f) (h : scoredFor comp sps p) :
    100 ≤ (buildBillingReport comp vhs sps).billingPlayerYen ∧
    100 ≤ (buildBillingReport comp vhs sps).billingYen := by
  have hmem : ∃ e ∈ billingMap comp vhs sps, (fun e => e.2 == "player") e = true := by
    obtain ⟨e, he, hv⟩ := @billingMap_player_mem comp vhs sps p h
    exact ⟨e, he, by simp [hv]⟩
  have hpos : 0 < (billingMap comp vhs sps).countP (fun e => e.2 == "player") :=
    List.countP_pos_iff.2 hmem
  have hvc : 0 ≤ (billingCounts comp (billingMap comp vhs sps)).2 := by
    simp only [billingCounts, hfin]
    positivity
  constructor
  · simp only [buildBillingReport, billingCounts, hfin]
    omega
  · have h1 : 100 ≤ (buildBillingReport comp vhs sps).billingPlayerYen := by
      simp only [buildBillingReport, billingCounts, hfin]
      omega
    simp only [buildBillingReport, billingCounts, hfin] at h1 ⊢
    omega

/-- C4 (amended).  When competition C of tenant T is marked finished while no
other finish is pending, the next run of the updateCompetitionFinish task
deletes the billing-report cache entry stored under the string key
brKey T C = Itoa(T) ++ C and leaves the entry under every other string key
unchanged (the key conflates pairs, see brKey_collision_evicts_other_pair,
and the deletion waits for the task's next tick); a computeBillingReport for
(T, C) run after that tick misses the report cache and recomputes the report
from the current competition row, and the recomputed report bills at least
100 yen whenever the competition row is finished and a scored player exists
for it. -/
theorem billingReportCache_eviction (s : Caches) (T : Int) (C : String)
    (hpending : assocGet s.compFinishCache 0 = none) :
    assocGet (afterFinish s T C).billingReportCache (brKey T C) = none ∧
    (∀ k, k ≠ brKey T C →
      assocGet (afterFinish s T C).billingReportCache k = assocGet s.billingReportCache k) ∧
    (∀ comp vhsStore spStore,
      (billingReportByCompetition (afterFinish s T C) T C comp vhsStore spStore).1 =
        buildBillingReport comp (vhsUsed (afterFinish s T C) T vhsStore)
          (spsUsed (afterFinish s T C) T spStore)) ∧
    (∀ comp vhsStore spStore f p, comp.finishedAt = some f →
      scoredFor comp (spsUsed (afterFinish s T C) T spStore) p →
      100 ≤ (billingReportByCompetition (afterFinish s T C) T C comp vhsStore spStore).1.billingYen) := by
  have hbr : (afterFinish s T C).billingReportCache =
      assocDelete s.billingReportCache (brKey T C) := by
    unfold afterFinish updateCompetitionFinish competitionFinishUpdateCaches
    simp only [hpending, List.nil_append, assocGet_set_self, List.foldl_cons, List.foldl_nil]
  have h1 : assocGet (afterFinish s T C).billingReportCache (brKey T C) = none := by
    rw [hbr]
    exact assocGet_delete_self _ _
  refine ⟨h1, ?_, ?_, ?_⟩
  · intro k hk
    rw [hbr]
    exact assocGet_delete_ne _ _ _ hk
  · intro comp vhsStore spStore
    unfold billingReportByCompetition
    rw [h1]
  · intro comp vhsStore spStore f p hfin hscored
    unfold billingReportByCompetition
    rw [h1]
    exact (buildBillingReport_player_lb comp _ _ f p hfin hscored).2

/-- Witness for C4 (amended): finishing (1, "23") on the collision state,
whose pending list is empty, evicts key "123". -/
theorem billingReportCache_eviction_witness :
    assocGet collisionCaches.compFinishCache 0 = none ∧
    assocGet (afterFinish collisionCaches 1 "23").billingReportCache (brKey 1 "23") = none :=
  ⟨rfl, (billingReportCache_eviction collisionCaches 1 "23" rfl).1⟩

/-- Counterexample to C5 as stated: after the reinitialization path runs,
the Visit Summary cache and the Scored-Player cache still return their
previously cached values for tenant 1 — initializeHandler resets the other
caches but calls no Reset on vhsCache or scoredPlayerCache. -/
theorem resetAllCaches_keeps_vhs_and_scored :
    assocGet preResetCaches.vhsCache 1 =
      some [{ playerID := "P3", minCreatedAt := 50, competitionID := "c1", tenantID := 1 }] ∧
    assocGet (resetAllCaches preResetCaches).vhsCache 1 =
      some [{ playerID := "P3", minCreatedAt := 50, competitionID := "c1", tenantID := 1 }] ∧
    assocGet (resetAllCaches preResetCaches).scoredPlayerCache 1 =
      some [{ id := "P3", competitionID := "c1" }] := by
  refine ⟨rfl, rfl, rfl⟩

/-- C5 (amended).  The reinitialization path empties the tenant-DB, JWT-key,
JWT-token, Player, Competition, tenant, pending-finish and Billing Report
caches — every previously cached key in them reads back as not found — and
replaces the visit-event buffer with an empty one, but it leaves the Visit
Summary and Scored-Player caches exactly as they were, so entries cached in
those two before the reset survive it. -/
theorem resetAllCaches_spec (s : Caches) :
    (∀ k, assocGet (resetAllCaches s).tenantDBCache k = none) ∧
    (∀ k, assocGet (resetAllCaches s).jwtKeyCache k = none) ∧
    (∀ k, assocGet (resetAllCaches s).jwtTokenCache k = none) ∧
    (∀ k, assocGet (resetAllCaches s).playerCache k = none) ∧
    (∀ k, assocGet (resetAllCaches s).competitionCache k = none) ∧
    (∀ k, assocGet (resetAllCaches s).tenantCache k = none) ∧
    (∀ k, assocGet (resetAllCaches s).compFinishCache k = none) ∧
    (∀ k, assocGet (resetAllCaches s).billingReportCache k = none) ∧
    assocGet (resetAllCaches s).visitHistories 0 = some [] ∧
    (resetAllCaches s).vhsCache = s.vhsCache ∧
    (resetAllCaches s).scoredPlayerCache = s.scoredPlayerCache := by
  refine ⟨fun k => rfl, fun k => rfl, fun k => rfl, fun k => rfl, fun k => rfl, fun k => rfl,
    fun k => rfl, fun k => rfl, ?_, rfl, rfl⟩
  exact assocGet_set_self s.visitHistories 0 []

/-- Counterexample to C6 as stated: a computeBillingReport call for tenant 1,
whose scored-player set is not cached, fetches the set from storage (here the
pair (P3, c1)) but returns with the Scored-Player cache still empty, so a
second call for the same tenant misses the cache again. -/
theorem scoredPlayerCache_never_stored :
    assocGet
      ((billingReportByCompetition emptyCaches 1 "c1" finishedComp []
        [{ id := "P3", competitionID := "c1" }]).2).scoredPlayerCache 1 = none := by
  rfl

/-- C6 (amended).  computeBillingReport reads through the Scored-Player
cache for lookup only: on a report-cache miss it computes with the cached
scored set if present and otherwise with the rows fetched from storage, but
it never stores the fetched set — the Scored-Player cache after the call is
exactly the one before it, so every call for an uncached tenant re-fetches.
The Visit Summary cache, by contrast, is populated with the summaries used. -/
theorem scoredPlayerCache_read_only (s : Caches) (T : Int) (C : String)
    (comp : CompetitionRow) (vhsStore : List VisitHistorySummaryRow)
    (spStore : List ScoredPlayer)
    (hmiss : assocGet s.billingReportCache (brKey T C) = none) :
    ((billingReportByCompetition s T C comp vhsStore spStore).2).scoredPlayerCache =
      s.scoredPlayerCache ∧
    (billingReportByCompetition s T C comp vhsStore spStore).1 =
      buildBillingReport comp (vhsUsed s T vhsStore) (spsUsed s T spStore) ∧
    assocGet ((billingReportByCompetition s T C comp vhsStore spStore).2).vhsCache T =
      some (vhsUsed s T vhsStore) := by
  unfold billingReportByCompetition
  rw [hmiss]
  exact ⟨rfl, rfl, assocGet_set_self _ _ _⟩

/-- Witness for C6 (amended): on the empty cache state the report-cache miss
hypothesis holds and the call leaves the Scored-Player cache empty. -/
theorem scoredPlayerCache_read_only_witness :
    assocGet emptyCaches.billingReportCache (brKey 1 "c1") = none ∧
    ((billingReportByCompetition emptyCaches 1 "c1" finishedComp []
      [{ id := "P3", competitionID := "c1" }]).2).scoredPlayerCache =
        emptyCaches.scoredPlayerCache :=
  ⟨rfl, (scoredPlayerCache_read_only emptyCaches 1 "c1" finishedComp []
    [{ id := "P3", competitionID := "c1" }] rfl).1⟩

/-- C7 (code evaluated at the failing schedule).  Two dispenseID callers
start after lazy initialization with the counter at 0.  The schedule lets
both run their mutex-protected increments first (the counter reaches 2) and
then lets each perform its formatting read of curId, which the source places
after dispenseMu.Unlock().  Both calls return the same identifier "2": the
increment and the read of its resulting value are not atomic with respect to
concurrent callers, so issued identifiers are not distinct. -/
theorem dispenseID_race_duplicate :
    dispenseResults
      (dispenseRun [0, 1, 0, 1]
        { curId := 0, threads := [{ pc := 0, ret := none }, { pc := 0, ret := none }] }) =
      [some "2", some "2"] := by
  rfl

/-- C8 (code evaluated at the failing input).  With a persisted high-water
mark of 100 in id_generator, the first dispenseID call after a cold start
issues the identifier "0" with counter value 0, which is not greater than
100, because the lazy-init Get receives the counter by value and its error
is discarded; and one run of the dispenseUpdate background task performs
exactly one persistence write rather than writing on every tick of its
90-second ticker. -/
theorem dispenseID_cold_start_restarts_at_zero :
    (dispenseIDFirstCall 100).1 = "0" ∧
    (dispenseIDFirstCall 100).2 = 0 ∧
    ¬ (100 : Int) < (dispenseIDFirstCall 100).2 ∧
    dispenseUpdateTrace 500 = [500] ∧
    (∀ c, (dispenseUpdateTrace c).length = 1) := by
  refine ⟨rfl, rfl, by decide, rfl, fun c => rfl⟩

/-- C9.  One invocation of the visit-event flush, with no concurrent record
calls, hands the entire current buffer to persistence in a single batch call
(the trace grows by exactly the one batch holding every buffered event),
leaves the in-memory buffer empty, and completes identically whether the
batch insert succeeds or fails — the persistence error is logged at most and
never propagated to any caller. -/
theorem delayedInsertVisitHistory_spec (s : VisitFlushState) (execOk : Bool) :
    (delayedInsertVisitHistory execOk s).buffer = [] ∧
    (delayedInsertVisitHistory execOk s).batches = s.batches ++ [(s.buffer, execOk)] ∧
    (delayedInsertVisitHistory false s).buffer = [] ∧
    (delayedInsertVisitHistory false s).batches = s.batches ++ [(s.buffer, false)] := by
  exact ⟨rfl, rfl, rfl, rfl⟩

theorem parseScoreRows_error_of_invalid (playerExists : String → Bool) :
    ∀ (rows : List (List String)) (rowNum : Int),
      (∃ row ∈ rows, rowInvalid playerExists row) →
      ∃ e, parseScoreRows playerExists rows rowNum = .error e := by
  intro rows
  induction rows with
  | nil =>
    intro rowNum h
    obtain ⟨row, hmem, _⟩ := h
    simp at hmem
  | cons row rest ih =>
    intro rowNum h
    by_cases hcols : ∃ playerID scoreStr, row = [playerID, scoreStr]
    · obtain ⟨playerID, scoreStr, hrow⟩ := hcols
      rw [hrow]
      by_cases hex : playerExists playerID
      · cases hp : goParseInt64 scoreStr with
        | none =>
          exact ⟨.invalidScore scoreStr, by simp [parseScoreRows, hex, hp]⟩
        | some score =>
          have hrest : ∃ r ∈ rest, rowInvalid playerExists r := by
            obtain ⟨r, hmem, hinv⟩ := h
            rcases List.mem_cons.1 hmem with he | ht
            · exfalso
              rw [he, hrow] at hinv
              rcases hinv with h1 | h1 | h1
              · exact h1 playerID scoreStr rfl
              · obtain ⟨a, b, hab, hnex⟩ := h1
                have ha : playerID = a ∧ scoreStr = b := by
                  injection hab with h1 h2
                  injection h2 with h3 h4
                  exact ⟨h1, h3⟩
                rw [← ha.1] at hnex
                rw [hex] at hnex
                exact absurd hnex (by simp)
              · obtain ⟨a, b, hab, _, hnone⟩ := h1
                have hb : scoreStr = b := by
                  injection hab with h1 h2
                  injection h2 with h3 _
                rw [← hb, hp] at hnone
                exact Option.some_ne_none score hnone
            · exact ⟨r, ht, hinv⟩
          obtain ⟨e, he⟩ := ih (rowNum + 1) hrest
          refine ⟨e, ?_⟩
          simp only [parseScoreRows, hex, if_true, hp, he]
      · exact ⟨.playerNotFound playerID, by simp [parseScoreRows, hex]⟩
    · have hbad : ∀ playerID scoreStr, row ≠ [playerID, scoreStr] := by
        intro a b hab
        exact hcols ⟨a, b, hab⟩
      refine ⟨.badColumnCount rowNum, ?_⟩
      unfold parseScoreRows
      cases row with
      | nil => rfl
      | cons x xs =>
        cases xs with
        | nil => rfl
        | cons y ys =>
          cases ys with
          | nil => exact absurd rfl (hbad x y)
          | cons z zs => rfl

/-- C10.  If a score upload fails any input validation — the competition is
already finished, the CSV header is not exactly (player_id, score), some row
does not have exactly two columns, names a player id absent from the player
store, or carries a score that does not parse as an int64 — then the handler
returns an error and the competition's stored score set after the call is
exactly the set before it, because every such return happens before the
DELETE and INSERT execute. -/
theorem competitionScoreUpload_atomic (initial : List ScoreEntry)
    (comp : CompetitionRow) (headers : List String) (rows : List (List String))
    (playerExists : String → Bool)
    (hbad : comp.finishedAt.isSome ∨ headers ≠ ["player_id", "score"] ∨
      ∃ row ∈ rows, rowInvalid playerExists row) :
    (∃ e, competitionScoreUpload comp headers rows playerExists = .error e) ∧
    scoreRowsAfterUpload initial comp headers rows playerExists = initial := by
  have herr : ∃ e, competitionScoreUpload comp headers rows playerExists = .error e := by
    unfold competitionScoreUpload
    by_cases hfin : comp.finishedAt.isSome
    · exact ⟨.competitionFinished, by simp [hfin]⟩
    · rw [if_neg hfin]
      by_cases hhead : headers ≠ ["player_id", "score"]
      · exact ⟨.invalidHeaders, by simp [hhead]⟩
      · rw [if_neg hhead]
        rcases hbad with h | h | h
        · exact absurd h hfin
        · exact absurd h hhead
        · exact parseScoreRows_error_of_invalid playerExists rows 1 h
  obtain ⟨e, he⟩ := herr
  refine ⟨⟨e, he⟩, ?_⟩
  unfold scoreRowsAfterUpload
  rw [he]

/-- Witness for C10: an open competition, correct headers, and a single row
whose score "abc" does not parse; the upload errors and a pre-existing score
set is untouched. -/
theorem competitionScoreUpload_atomic_witness :
    ((CompetitionRow.mk 1 "c2" "t" none 0 0).finishedAt.isSome ∨
      ["player_id", "score"] ≠ ["player_id", "score"] ∨
      ∃ row ∈ [["P3", "abc"]], rowInvalid (fun _ => true) row) ∧
    ((∃ e, competitionScoreUpload (CompetitionRow.mk 1 "c2" "t" none 0 0)
        ["player_id", "score"] [["P3", "abc"]] (fun _ => true) = .error e) ∧
      scoreRowsAfterUpload [{ playerID := "P9", score := 7, rowNum := 1 }]
        (CompetitionRow.mk 1 "c2" "t" none 0 0) ["player_id", "score"] [["P3", "abc"]]
        (fun _ => true) = [{ playerID := "P9", score := 7, rowNum := 1 }]) := by
  have hbad : (CompetitionRow.mk 1 "c2" "t" none 0 0).finishedAt.isSome ∨
      ["player_id", "score"] ≠ ["player_id", "score"] ∨
      ∃ row ∈ [["P3", "abc"]], rowInvalid (fun _ => true) row := by
    right; right
    refine ⟨["P3", "abc"], List.mem_cons_self _ _, ?_⟩
    right; right
    exact ⟨"P3", "abc", rfl, rfl, by rfl⟩
  exact ⟨hbad, competitionScoreUpload_atomic
    [{ playerID := "P9", score := 7, rowNum := 1 }]
    (CompetitionRow.mk 1 "c2" "t" none 0 0) ["player_id", "score"] [["P3", "abc"]]
    (fun _ => true) hbad⟩

end Isuports

